import Mathlib

/-!
Verification of the genai web backend's SQL-safety, schema-introspection,
generation and query orchestration core.

Go strings are modelled as lists of characters (`GoStr`); the ASCII fragment
of Go's `strings` / `unicode` helpers is embedded.  The backing store and the
external generator are collaborator parameters: statement execution is an
explicit function on an abstract database state, the generator a function
from prompt text to response text.
-/

/-- Go strings, modelled as lists of characters. -/
abbrev GoStr := List Char

/-- Whether `pat` is a prefix of `s` (Go `strings.HasPrefix s pat`). -/
def startsWith : GoStr → GoStr → Bool
  | _, [] => true
  | [], _ :: _ => false
  | c :: s, p :: ps => c == p && startsWith s ps

/-- Go `strings.Contains s pat`: `pat` occurs as a contiguous substring of `s`. -/
def hasSubstrB : GoStr → GoStr → Bool
  | [], pat => startsWith [] pat
  | c :: t, pat => startsWith (c :: t) pat || hasSubstrB t pat

/-- The ASCII fragment of Go's `unicode.IsSpace`. -/
def goIsSpace (c : Char) : Bool :=
  c == ' ' || c == '\t' || c == '\n' || c == '\r' || c == '\x0b' || c == '\x0c'

/-- Go `strings.TrimSpace`, trimming space characters from both ends. -/
def goTrimSpace (s : GoStr) : GoStr :=
  ((s.dropWhile goIsSpace).reverse.dropWhile goIsSpace).reverse

/-- Go `strings.TrimPrefix s pat`: remove one leading occurrence of `pat`, if present. -/
def goTrimLeading (s pat : GoStr) : GoStr :=
  if startsWith s pat then s.drop pat.length else s

/-- Go `strings.TrimSuffix s pat`: remove one trailing occurrence of `pat`, if present. -/
def goTrimTrailing (s pat : GoStr) : GoStr :=
  if startsWith s.reverse pat.reverse then (s.reverse.drop pat.length).reverse else s

/-- Go `strings.ToUpper`, restricted to its ASCII fragment (`a`-`z` map to
`A`-`Z`, everything else is unchanged), which is the fragment the denylist
keywords live in. -/
def goToUpper (s : GoStr) : GoStr := s.map Char.toUpper

/-! ## Safety Filter (`internal/database/db.go`, `IsQuerySafe`) -/

/-- The fixed denylist of destructive-operation keywords from `IsQuerySafe`. -/
def forbiddenKeywords : List GoStr :=
  ["DROP".toList, "DELETE".toList, "UPDATE".toList, "ALTER".toList, "TRUNCATE".toList]

/-- `IsQuerySafe` from `internal/database/db.go`: uppercase the query and
return `false` as soon as one denylisted keyword occurs as a substring,
`true` otherwise. -/
def IsQuerySafe (query : GoStr) : Bool :=
  let upperQuery := goToUpper query
  !(forbiddenKeywords.any fun word => hasSubstrB upperQuery word)

example : IsQuerySafe "SELECT * FROM t".toList = true := by decide
example : IsQuerySafe "select 1; dRoP table t".toList = false := by decide
example : IsQuerySafe "SELECT note FROM updates".toList = false := by decide

/-- C1: `IsQuerySafe q` returns `false` if and only if the uppercased text of
`q` contains at least one of the denylist keywords `DROP`, `DELETE`, `UPDATE`,
`ALTER`, `TRUNCATE` as a substring; in particular it returns `true` for every
text containing none of the keywords, however destructive that text is. -/
theorem isQuerySafe_false_iff (q : GoStr) :
    IsQuerySafe q = false ↔
      ∃ w, w ∈ forbiddenKeywords ∧ hasSubstrB (goToUpper q) w = true := by
  simp [IsQuerySafe, List.any_eq_true]

/-! ## Chart directive splitting (Go `strings.Split generatedSQL "-- CHART:"`) -/

/-- The chart directive comment marker from `cmd/web/main.go`. -/
def chartMarker : GoStr := "-- CHART:".toList

/-- Go `strings.Split s chartMarker`, fuel-indexed so that it is structurally
recursive: split `s` around each non-overlapping occurrence of the marker,
scanning left to right.  The fuel is always instantiated above the length of
`s`, where the zero-fuel branch is unreachable. -/
def splitMarkerF : Nat → GoStr → List GoStr
  | 0, s => [s]
  | _ + 1, [] => [[]]
  | fuel + 1, c :: rest =>
    if startsWith (c :: rest) chartMarker then
      [] :: splitMarkerF fuel (rest.drop 8)
    else
      match splitMarkerF fuel rest with
      | [] => [[c]]
      | p :: ps => (c :: p) :: ps

/-- Go `strings.Split s "-- CHART:"`. -/
def splitMarker (s : GoStr) : List GoStr := splitMarkerF (s.length + 1) s

/-- Inverse of the split: interleave the parts with the marker (Go
`strings.Join parts "-- CHART:"`). -/
def joinMarker : List GoStr → GoStr
  | [] => []
  | [p] => p
  | p :: q :: r => p ++ chartMarker ++ joinMarker (q :: r)

theorem chartMarker_eq :
    chartMarker = ['-', '-', ' ', 'C', 'H', 'A', 'R', 'T', ':'] := by decide

theorem startsWith_iff : ∀ s pat : GoStr, startsWith s pat = true ↔ ∃ t, s = pat ++ t
  | _, [] => by simp [startsWith]
  | [], p :: ps => by simp [startsWith]
  | c :: s, p :: ps => by
    simp only [startsWith, Bool.and_eq_true, beq_iff_eq, startsWith_iff s ps,
      List.cons_append, List.cons.injEq]
    constructor
    · rintro ⟨rfl, t, rfl⟩
      exact ⟨t, rfl, rfl⟩
    · rintro ⟨t, rfl, rfl⟩
      exact ⟨rfl, t, rfl⟩

theorem startsWith_drop {s pat : GoStr} (h : startsWith s pat = true) :
    s = pat ++ s.drop pat.length := by
  obtain ⟨t, rfl⟩ := (startsWith_iff s pat).mp h
  rw [List.drop_left]

theorem splitMarkerF_ne_nil : ∀ (f : Nat) (s : GoStr), splitMarkerF f s ≠ []
  | 0, s => by simp [splitMarkerF]
  | _ + 1, [] => by simp [splitMarkerF]
  | f + 1, c :: rest => by
    simp only [splitMarkerF]
    by_cases h : startsWith (c :: rest) chartMarker = true
    · simp [h]
    · simp only [h]
      cases splitMarkerF f rest <;> simp

theorem splitMarkerF_congr (f : Nat) : ∀ (g : Nat) (s : GoStr),
    s.length < f → s.length < g → splitMarkerF f s = splitMarkerF g s := by
  induction f with
  | zero => exact fun g s hf _ => absurd hf (Nat.not_lt_zero _)
  | succ f ih =>
    intro g s hf hg
    cases g with
    | zero => exact absurd hg (Nat.not_lt_zero _)
    | succ g =>
      cases s with
      | nil => rfl
      | cons c rest =>
        simp only [List.length_cons, Nat.succ_lt_succ_iff] at hf hg
        by_cases h : startsWith (c :: rest) chartMarker = true
        · simp only [splitMarkerF, h, if_true]
          have hd : (rest.drop 8).length ≤ rest.length := by
            simp [List.length_drop]
          rw [ih g (rest.drop 8) (lt_of_le_of_lt hd hf) (lt_of_le_of_lt hd hg)]
        · simp only [splitMarkerF]
          rw [if_neg h, if_neg h, ih g rest hf hg]

theorem splitMarker_eq_splitMarkerF {f : Nat} {s : GoStr} (hf : s.length < f) :
    splitMarker s = splitMarkerF f s :=
  splitMarkerF_congr (s.length + 1) f s (Nat.lt_succ_self _) hf

theorem splitMarkerF_join (f : Nat) : ∀ s : GoStr,
    s.length < f → joinMarker (splitMarkerF f s) = s := by
  induction f with
  | zero => exact fun s hf => absurd hf (Nat.not_lt_zero _)
  | succ f ih =>
    intro s hf
    cases s with
    | nil => rfl
    | cons c rest =>
      simp only [List.length_cons, Nat.succ_lt_succ_iff] at hf
      by_cases h : startsWith (c :: rest) chartMarker = true
      · simp only [splitMarkerF, h, if_true]
        have hd : (rest.drop 8).length ≤ rest.length := by
          simp [List.length_drop]
        have hjoin := ih (rest.drop 8) (lt_of_le_of_lt hd hf)
        cases hq : splitMarkerF f (rest.drop 8) with
        | nil => exact absurd hq (splitMarkerF_ne_nil f _)
        | cons q qs =>
          rw [hq] at hjoin
          calc joinMarker ([] :: q :: qs) = chartMarker ++ joinMarker (q :: qs) := rfl
            _ = chartMarker ++ rest.drop 8 := by rw [hjoin]
            _ = c :: rest := by
                conv_rhs => rw [startsWith_drop h]
                rw [chartMarker_eq]
                rfl
      · simp only [splitMarkerF]
        rw [if_neg h]
        have hjoin := ih rest hf
        cases hp : splitMarkerF f rest with
        | nil => exact absurd hp (splitMarkerF_ne_nil f _)
        | cons p ps =>
          rw [hp] at hjoin
          cases ps with
          | nil => simpa [joinMarker] using congrArg (c :: ·) hjoin
          | cons q qs =>
            calc joinMarker ((c :: p) :: q :: qs)
                = c :: (p ++ chartMarker ++ joinMarker (q :: qs)) := by
                  simp [joinMarker]
              _ = c :: joinMarker (p :: q :: qs) := by simp [joinMarker]
              _ = c :: rest := by rw [hjoin]

theorem splitMarkerF_head (f : Nat) : ∀ (s : GoStr), s.length < f →
    ∀ p ps, splitMarkerF f s = p :: ps →
      hasSubstrB p chartMarker = false ∧ ∃ t, s = p ++ t := by
  induction f with
  | zero => exact fun s hf => absurd hf (Nat.not_lt_zero _)
  | succ f ih =>
    intro s hf p ps hsplit
    cases s with
    | nil =>
      simp only [splitMarkerF, List.cons.injEq] at hsplit
      obtain ⟨rfl, rfl⟩ := hsplit
      exact ⟨by decide, [], rfl⟩
    | cons c rest =>
      simp only [List.length_cons, Nat.succ_lt_succ_iff] at hf
      by_cases h : startsWith (c :: rest) chartMarker = true
      · simp only [splitMarkerF, h, if_true, List.cons.injEq] at hsplit
        obtain ⟨rfl, rfl⟩ := hsplit
        exact ⟨by decide, c :: rest, rfl⟩
      · simp only [splitMarkerF] at hsplit
        rw [if_neg h] at hsplit
        cases hp : splitMarkerF f rest with
        | nil => exact absurd hp (splitMarkerF_ne_nil f _)
        | cons p' ps' =>
          rw [hp, List.cons.injEq] at hsplit
          obtain ⟨rfl, rfl⟩ := hsplit
          obtain ⟨hnosub, t, hpre⟩ := ih rest hf p' ps' hp
          refine ⟨?_, t, by rw [hpre, List.cons_append]⟩
          simp only [hasSubstrB, Bool.or_eq_false_iff]
          refine ⟨?_, hnosub⟩
          by_contra hsw
          rw [Bool.not_eq_false] at hsw
          obtain ⟨u, hu⟩ := (startsWith_iff _ _).mp hsw
          have : startsWith (c :: rest) chartMarker = true := by
            rw [startsWith_iff]
            exact ⟨u ++ t, by rw [hpre, ← List.append_assoc, ← hu, List.cons_append]⟩
          exact h this

theorem splitMarkerF_length_iff (f : Nat) : ∀ s : GoStr, s.length < f →
    (hasSubstrB s chartMarker = true ↔ 2 ≤ (splitMarkerF f s).length) := by
  induction f with
  | zero => exact fun s hf => absurd hf (Nat.not_lt_zero _)
  | succ f ih =>
    intro s hf
    cases s with
    | nil => simp [splitMarkerF, hasSubstrB, startsWith, chartMarker_eq]
    | cons c rest =>
      simp only [List.length_cons, Nat.succ_lt_succ_iff] at hf
      by_cases h : startsWith (c :: rest) chartMarker = true
      · simp only [splitMarkerF, h, if_true, hasSubstrB, Bool.true_or,
          List.length_cons, true_iff]
        have := List.length_pos.mpr (splitMarkerF_ne_nil f (rest.drop 8))
        omega
      · simp only [splitMarkerF, hasSubstrB]
        rw [if_neg h]
        rw [Bool.not_eq_true] at h
        rw [h, Bool.false_or]
        cases hp : splitMarkerF f rest with
        | nil => exact absurd hp (splitMarkerF_ne_nil f _)
        | cons p ps =>
          have := ih rest hf
          rw [hp] at this
          simpa using this

/-! ## Schema Introspector (`internal/database/db.go`, `GetSchema`/`GetTables`) -/

/-- One row of the `information_schema.columns` query in `GetSchema`. -/
structure ColumnRow where
  tableName : GoStr
  columnName : GoStr
  dataType : GoStr
  ordinalPos : Nat
  deriving DecidableEq

/-- A table of the live catalog: its name and its ((column name, declared
type)) pairs in declaration order. -/
structure TableDef where
  name : GoStr
  columns : List (GoStr × GoStr)
  deriving DecidableEq

/-- The catalog rows of one table: ordinal positions `i, i+1, …` follow the
declaration order of the columns. -/
def tableRowsAux (name : GoStr) : Nat → List (GoStr × GoStr) → List ColumnRow
  | _, [] => []
  | i, (cn, dt) :: rest => ⟨name, cn, dt, i⟩ :: tableRowsAux name (i + 1) rest

/-- The `information_schema.columns` rows of one table (ordinals start at 1). -/
def tableRows (t : TableDef) : List ColumnRow := tableRowsAux t.name 1 t.columns

/-- All `information_schema.columns` rows of the public namespace. -/
def catalogRows (catalog : List TableDef) : List ColumnRow :=
  catalog.flatMap tableRows

/-- The `ORDER BY table_name, ordinal_position` ordering of `GetSchema`'s
catalog query (string comparison is bytewise, i.e. the C collation). -/
def rowLe (a b : ColumnRow) : Prop :=
  a.tableName < b.tableName ∨ (a.tableName = b.tableName ∧ a.ordinalPos ≤ b.ordinalPos)

/-- Strict version of `rowLe`. -/
def rowLt (a b : ColumnRow) : Prop :=
  a.tableName < b.tableName ∨ (a.tableName = b.tableName ∧ a.ordinalPos < b.ordinalPos)

/-- The sort key of the catalog query. -/
def rowKey (r : ColumnRow) : GoStr × Nat := (r.tableName, r.ordinalPos)

instance : DecidableRel rowLe := fun a b => by unfold rowLe; infer_instance

instance : DecidableRel rowLt := fun a b => by unfold rowLt; infer_instance

instance : IsTotal ColumnRow rowLe := ⟨by
  intro a b
  rcases lt_trichotomy a.tableName b.tableName with h | h | h
  · exact Or.inl (Or.inl h)
  · rcases Nat.le_total a.ordinalPos b.ordinalPos with h2 | h2
    · exact Or.inl (Or.inr ⟨h, h2⟩)
    · exact Or.inr (Or.inr ⟨h.symm, h2⟩)
  · exact Or.inr (Or.inl h)⟩

instance : IsTrans ColumnRow rowLe := ⟨by
  intro a b c hab hbc
  rcases hab with h1 | ⟨e1, l1⟩ <;> rcases hbc with h2 | ⟨e2, l2⟩
  · exact Or.inl (lt_trans h1 h2)
  · exact Or.inl (by rw [← e2]; exact h1)
  · exact Or.inl (by rw [e1]; exact h2)
  · exact Or.inr ⟨e1.trans e2, le_trans l1 l2⟩⟩

instance : IsAntisymm ColumnRow rowLt := ⟨by
  intro a b hab hba
  exfalso
  rcases hab with h1 | ⟨e1, l1⟩ <;> rcases hba with h2 | ⟨e2, l2⟩
  · exact lt_asymm h1 h2
  · rw [e2] at h1; exact lt_irrefl _ h1
  · rw [e1] at h2; exact lt_irrefl _ h2
  · omega⟩

theorem rowLt_key_ne {a b : ColumnRow} (h : rowLt a b) : rowKey a ≠ rowKey b := by
  intro hk
  simp only [rowKey, Prod.mk.injEq] at hk
  rcases h with h1 | ⟨e1, l1⟩
  · rw [hk.1] at h1; exact lt_irrefl _ h1
  · omega

theorem sorted_rowLt_of_sorted_rowLe {l : List ColumnRow}
    (hs : l.Sorted rowLe) (hnd : (l.map rowKey).Nodup) : l.Sorted rowLt := by
  have hpair : l.Pairwise fun a b => rowKey a ≠ rowKey b := List.pairwise_map.mp hnd
  refine (hs.and hpair).imp ?_
  rintro a b ⟨hle, hne⟩
  rcases hle with h | ⟨e, le⟩
  · exact Or.inl h
  · refine Or.inr ⟨e, lt_of_le_of_ne le fun heq => hne ?_⟩
    simp [rowKey, e, heq]

/-- The rows returned by `GetSchema`'s catalog query: all column rows ordered
by `table_name, ordinal_position`. -/
def sortedRows (rows : List ColumnRow) : List ColumnRow :=
  List.insertionSort rowLe rows

/-- The row loop of `GetSchema`: a `TABLE name (` header whenever the table
name changes (closing the previous block first), one column line per row, a
final `)` after the last block. -/
def renderRowsAux : List ColumnRow → GoStr → GoStr → GoStr
  | [], currentTable, acc =>
      if currentTable ≠ [] then acc ++ ")\n".toList else acc
  | r :: rest, currentTable, acc =>
      if r.tableName ≠ currentTable then
        renderRowsAux rest r.tableName
          ((if currentTable ≠ [] then acc ++ ")\n".toList else acc)
            ++ "TABLE ".toList ++ r.tableName ++ " (\n".toList
            ++ "  ".toList ++ r.columnName ++ " ".toList ++ r.dataType ++ ",\n".toList)
      else
        renderRowsAux rest currentTable
          (acc ++ "  ".toList ++ r.columnName ++ " ".toList ++ r.dataType ++ ",\n".toList)

/-- `GetSchema` from `internal/database/db.go`, as a function of the catalog
rows the backing store enumerates (in arbitrary enumeration order; the
query's `ORDER BY` is modelled by `sortedRows`). -/
def GetSchema (rows : List ColumnRow) : GoStr :=
  renderRowsAux (sortedRows rows) [] []

/-- `GetSchema` applied to a whole catalog. -/
def GetSchemaOfCatalog (catalog : List TableDef) : GoStr :=
  GetSchema (catalogRows catalog)

/-- `GetTables` from `internal/database/db.go`: the table names of the public
namespace, `ORDER BY table_name`. -/
def GetTables (catalog : List TableDef) : List GoStr :=
  List.insertionSort (fun a b : GoStr => a ≤ b) (catalog.map TableDef.name)

example :
    GetSchemaOfCatalog [⟨"t".toList, [("a".toList, "integer".toList)]⟩]
      = "TABLE t (\n  a integer,\n)\n".toList := by decide

/-- C8: `GetSchema` is deterministic with respect to the catalog state: two
calls that see the same catalog contents (the same rows, in possibly
different enumeration orders, with well-formed distinct (table, ordinal)
keys) render character-for-character identical text. -/
theorem getSchema_deterministic {rows1 rows2 : List ColumnRow}
    (hperm : rows1.Perm rows2) (hnd : (rows1.map rowKey).Nodup) :
    GetSchema rows1 = GetSchema rows2 := by
  unfold GetSchema
  congr 1
  have hperm1 : (sortedRows rows1).Perm rows1 := List.perm_insertionSort _ _
  have hperm2 : (sortedRows rows2).Perm rows2 := List.perm_insertionSort _ _
  have hnd1 : ((sortedRows rows1).map rowKey).Nodup :=
    ((hperm1.map rowKey).nodup_iff).mpr hnd
  have hnd2 : ((sortedRows rows2).map rowKey).Nodup :=
    ((hperm2.map rowKey).nodup_iff).mpr (((hperm.map rowKey).nodup_iff).mp hnd)
  exact List.eq_of_perm_of_sorted
    (hperm1.trans (hperm.trans hperm2.symm))
    (sorted_rowLt_of_sorted_rowLe (List.sorted_insertionSort _ _) hnd1)
    (sorted_rowLt_of_sorted_rowLe (List.sorted_insertionSort _ _) hnd2)

theorem getSchema_deterministic_witness :
    GetSchema
        [⟨"restaurants".toList, "id".toList, "integer".toList, 1⟩,
         ⟨"restaurants".toList, "name".toList, "varchar".toList, 2⟩]
      = GetSchema
        [⟨"restaurants".toList, "name".toList, "varchar".toList, 2⟩,
         ⟨"restaurants".toList, "id".toList, "integer".toList, 1⟩] :=
  getSchema_deterministic (by decide) (by decide)

theorem tableRowsAux_mem (name : GoStr) :
    ∀ (i : Nat) (cols : List (GoStr × GoStr)) (r : ColumnRow),
      r ∈ tableRowsAux name i cols → r.tableName = name ∧ i ≤ r.ordinalPos := by
  intro i cols
  induction cols generalizing i with
  | nil => simp [tableRowsAux]
  | cons cd rest ih =>
    obtain ⟨cn, dt⟩ := cd
    intro r hr
    simp only [tableRowsAux, List.mem_cons] at hr
    rcases hr with rfl | hr
    · exact ⟨rfl, le_refl _⟩
    · obtain ⟨h1, h2⟩ := ih (i + 1) r hr
      exact ⟨h1, by omega⟩

theorem tableRowsAux_sorted (name : GoStr) :
    ∀ (i : Nat) (cols : List (GoStr × GoStr)),
      (tableRowsAux name i cols).Sorted rowLt := by
  intro i cols
  induction cols generalizing i with
  | nil => simp [tableRowsAux, List.Sorted]
  | cons cd rest ih =>
    obtain ⟨cn, dt⟩ := cd
    rw [tableRowsAux, List.sorted_cons]
    refine ⟨?_, ih (i + 1)⟩
    intro b hb
    obtain ⟨h1, h2⟩ := tableRowsAux_mem name (i + 1) rest b hb
    refine Or.inr ⟨h1.symm, ?_⟩
    show i < b.ordinalPos
    omega

theorem tableRows_sorted (t : TableDef) : (tableRows t).Sorted rowLt :=
  tableRowsAux_sorted t.name 1 t.columns

theorem tableRows_tableName {t : TableDef} {r : ColumnRow} (hr : r ∈ tableRows t) :
    r.tableName = t.name :=
  (tableRowsAux_mem t.name 1 t.columns r hr).1

theorem tableRows_key_nodup (t : TableDef) : ((tableRows t).map rowKey).Nodup :=
  List.pairwise_map.mpr
    (List.Pairwise.imp (fun h => rowLt_key_ne h) (tableRows_sorted t))

theorem filter_tableRows_self (t : TableDef) :
    (tableRows t).filter (fun r => decide (r.tableName = t.name)) = tableRows t :=
  List.filter_eq_self.mpr fun r hr => by simp [tableRows_tableName hr]

theorem filter_tableRows_ne {t t' : TableDef} (h : t'.name ≠ t.name) :
    (tableRows t').filter (fun r => decide (r.tableName = t.name)) = [] := by
  rw [List.filter_eq_nil_iff]
  intro r hr
  simp [tableRows_tableName hr, h]

theorem filter_catalogRows_not_mem {catalog : List TableDef} {t : TableDef}
    (h : t.name ∉ catalog.map TableDef.name) :
    (catalogRows catalog).filter (fun r => decide (r.tableName = t.name)) = [] := by
  induction catalog with
  | nil => rfl
  | cons t' cs ih =>
    simp only [List.map_cons, List.mem_cons, not_or] at h
    simp only [catalogRows, List.flatMap_cons, List.filter_append]
    rw [filter_tableRows_ne fun he => h.1 he.symm]
    simpa [catalogRows] using ih h.2

theorem filter_catalogRows {catalog : List TableDef} {t : TableDef}
    (hnd : (catalog.map TableDef.name).Nodup) (ht : t ∈ catalog) :
    (catalogRows catalog).filter (fun r => decide (r.tableName = t.name))
      = tableRows t := by
  induction catalog with
  | nil => cases ht
  | cons t' cs ih =>
    rw [List.map_cons, List.nodup_cons] at hnd
    simp only [catalogRows, List.flatMap_cons, List.filter_append]
    rcases List.mem_cons.mp ht with rfl | hmem
    · rw [filter_tableRows_self]
      have hnil : (catalogRows cs).filter
          (fun r => decide (r.tableName = t.name)) = [] :=
        filter_catalogRows_not_mem hnd.1
      simp only [catalogRows] at hnil
      rw [hnil, List.append_nil]
    · have hne : t'.name ≠ t.name := by
        intro he
        exact hnd.1 (by rw [he]; exact List.mem_map_of_mem TableDef.name hmem)
      rw [filter_tableRows_ne hne, List.nil_append]
      have := ih hnd.2 hmem
      simpa [catalogRows] using this

/-- Declaration order deliberately not alphabetical: `zzz` declared first. -/
def catalogZA : List TableDef :=
  [⟨"zzz".toList, [("a".toList, "text".toList)]⟩,
   ⟨"aaa".toList, [("b".toList, "text".toList)]⟩]

/-- The second table of `catalogZA`. -/
def tableAAA : TableDef := ⟨"aaa".toList, [("b".toList, "text".toList)]⟩

/-- C7 counterexample: for a catalog that declares table `zzz` before table
`aaa`, `GetTables` returns `["aaa", "zzz"]` — sorted by name, not the
declaration order `["zzz", "aaa"]`. -/
theorem getTables_not_declaration_order :
    GetTables catalogZA = ["aaa".toList, "zzz".toList] ∧
      GetTables catalogZA ≠ catalogZA.map TableDef.name := by decide

/-- C7 (amended): `GetTables` returns the table names sorted in ascending
name order (`ORDER BY table_name`) — a sorted permutation of the declared
names, not the declaration order; and the Schema Description orders each
table's columns by ordinal position, i.e. in declaration order: in the row
list `GetSchema` renders, the rows of any table of a catalog with distinct
table names are exactly its declared columns in declaration order. -/
theorem getTables_sorted_getSchema_columns_ordered (catalog : List TableDef) :
    (GetTables catalog).Perm (catalog.map TableDef.name) ∧
      (GetTables catalog).Sorted (fun a b : GoStr => a ≤ b) ∧
      ((catalog.map TableDef.name).Nodup → ∀ t ∈ catalog,
        (sortedRows (catalogRows catalog)).filter
            (fun r => decide (r.tableName = t.name)) = tableRows t) := by
  refine ⟨List.perm_insertionSort _ _, List.sorted_insertionSort _ _, ?_⟩
  intro hnd t ht
  have hperm := (List.perm_insertionSort rowLe (catalogRows catalog)).filter
      (fun r => decide (r.tableName = t.name))
  rw [filter_catalogRows hnd ht] at hperm
  have hsortedLe : ((sortedRows (catalogRows catalog)).filter
      (fun r => decide (r.tableName = t.name))).Sorted rowLe :=
    List.Sorted.filter _ (List.sorted_insertionSort _ _)
  have hnd2 : (((sortedRows (catalogRows catalog)).filter
      (fun r => decide (r.tableName = t.name))).map rowKey).Nodup :=
    ((hperm.map rowKey).nodup_iff).mpr (tableRows_key_nodup t)
  exact List.eq_of_perm_of_sorted hperm
    (sorted_rowLt_of_sorted_rowLe hsortedLe hnd2) (tableRows_sorted t)

theorem getTables_sorted_getSchema_columns_ordered_witness :
    (GetTables catalogZA).Sorted (fun a b : GoStr => a ≤ b) ∧
      (sortedRows (catalogRows catalogZA)).filter
          (fun r => decide (r.tableName = tableAAA.name)) = tableRows tableAAA :=
  ⟨(getTables_sorted_getSchema_columns_ordered catalogZA).2.1,
   (getTables_sorted_getSchema_columns_ordered catalogZA).2.2 (by decide)
     tableAAA (by decide)⟩

/-! ## Generator response post-processing (`internal/gemini/gemini.go`) -/

/-- `getResponseText` from `internal/gemini/gemini.go`: trim whitespace and
surrounding markdown code-fence markup from the generator's raw response
text. -/
def getResponseText (raw : GoStr) : GoStr :=
  goTrimSpace
    (goTrimTrailing
      (goTrimSpace
        (goTrimLeading (goTrimLeading (goTrimSpace raw) "```sql".toList) "```".toList))
      "```".toList)

/-- The cleaned generated text in `NaturalLanguageToSQL` after the generator
call: strip code fences once more and trim. -/
def nlCleanText (raw : GoStr) : GoStr :=
  goTrimSpace
    (goTrimTrailing
      (goTrimLeading (goTrimLeading (getResponseText raw) "```sql".toList) "```".toList)
      "```".toList)

/-- The post-processing in `NaturalLanguageToSQL` after the generator call:
the cleaned generated text together with the `isChart` flag, which is set
exactly when the cleaned text contains the chart marker. -/
def NaturalLanguageToSQLText (raw : GoStr) : GoStr × Bool :=
  (nlCleanText raw, hasSubstrB (nlCleanText raw) chartMarker)

/-! ## Query Orchestrator (`cmd/web/main.go`, `query`) -/

/-- A dynamic column value as scanned from the store (`interface\x7b\x7d`). -/
inductive GoValue where
  | vnull : GoValue
  | vstr : GoStr → GoValue
  | vint : Int → GoValue
  | vbool : Bool → GoValue
  deriving DecidableEq

/-- A materialized result row: column name to dynamic value, in result-set
column order. -/
abbrev RowMap := List (GoStr × GoValue)

/-- The chart-directive handling of the `query` handler: when `isChart` is
set and the split on the marker yields more than one part, the SQL to execute
is the part before the first marker and the chart type is the trimmed second
part; otherwise the full generated text is executed with an empty chart
type. -/
def splitChart (generatedSQL : GoStr) (isChart : Bool) : GoStr × GoStr :=
  if isChart then
    match splitMarker generatedSQL with
    | p0 :: p1 :: _ => (p0, goTrimSpace p1)
    | _ => (generatedSQL, [])
  else (generatedSQL, [])

/-- The JSON payload of a successful `query` response. -/
structure QueryResponse where
  sql : GoStr
  result : List RowMap
  isChart : Bool
  chartType : GoStr
  deriving DecidableEq

/-- Outcome of the `query` handler past the generator call. -/
inductive QueryOutcome where
  | unsafeQuery (execSQL : GoStr)
  | execError (execSQL : GoStr)
  | ok (resp : QueryResponse)
  deriving DecidableEq

/-- The row-materialization loop of `query`: scan each cursor row in order; a
row whose scan fails (`none`) is skipped with `continue`. -/
def materializeRows (cursor : List (Option RowMap)) : List RowMap :=
  cursor.filterMap id

/-- The `query` handler of `cmd/web/main.go` after the generator call,
parameterized by single-statement execution against the backing store
(`execQ` returns the result cursor, or `none` on a query error).  The second
component is the list of statements that reached the store. -/
def queryCore (execQ : GoStr → Option (List (Option RowMap)))
    (generatedSQL : GoStr) (isChart : Bool) : QueryOutcome × List GoStr :=
  if IsQuerySafe (splitChart generatedSQL isChart).1 then
    match execQ (splitChart generatedSQL isChart).1 with
    | none =>
        (.execError (splitChart generatedSQL isChart).1,
         [(splitChart generatedSQL isChart).1])
    | some cursor =>
        (.ok ⟨generatedSQL, materializeRows cursor, isChart,
           (splitChart generatedSQL isChart).2⟩,
         [(splitChart generatedSQL isChart).1])
  else (.unsafeQuery (splitChart generatedSQL isChart).1, [])

/-- The `query` pipeline: the generator's raw response is post-processed by
`NaturalLanguageToSQLText`, then handled by `queryCore`. -/
def queryPipeline (execQ : GoStr → Option (List (Option RowMap)))
    (raw : GoStr) : QueryOutcome × List GoStr :=
  queryCore execQ (NaturalLanguageToSQLText raw).1 (NaturalLanguageToSQLText raw).2

/-- C3: whenever the executable SQL derived from the generator's output is
rejected by the Safety Filter, the `query` handler fails with the
unsafe-query error and no statement is ever executed against the database. -/
theorem unsafe_query_blocked (execQ : GoStr → Option (List (Option RowMap)))
    (raw : GoStr)
    (h : IsQuerySafe (splitChart (NaturalLanguageToSQLText raw).1
            (NaturalLanguageToSQLText raw).2).1 = false) :
    queryPipeline execQ raw =
      (.unsafeQuery (splitChart (NaturalLanguageToSQLText raw).1
          (NaturalLanguageToSQLText raw).2).1, []) := by
  unfold queryPipeline queryCore
  simp [h]

theorem unsafe_query_blocked_witness :
    IsQuerySafe (splitChart (NaturalLanguageToSQLText "DROP TABLE restaurants".toList).1
        (NaturalLanguageToSQLText "DROP TABLE restaurants".toList).2).1 = false ∧
      queryPipeline (fun _ => none) "DROP TABLE restaurants".toList =
        (.unsafeQuery (splitChart
            (NaturalLanguageToSQLText "DROP TABLE restaurants".toList).1
            (NaturalLanguageToSQLText "DROP TABLE restaurants".toList).2).1, []) :=
  ⟨by decide,
   unsafe_query_blocked (fun _ => none) "DROP TABLE restaurants".toList (by decide)⟩

theorem nlText_isChart (raw : GoStr) :
    (NaturalLanguageToSQLText raw).2
      = hasSubstrB (NaturalLanguageToSQLText raw).1 chartMarker := by
  simp only [NaturalLanguageToSQLText]

/-- C4: if the generator's cleaned output contains the chart directive
marker, the orchestrator splits it there: the SQL handed to execution is
exactly the portion of the generated text preceding the first marker (the
stripped portion contains no marker), the trimmed text after the marker is
kept as chart metadata, and a successful response carries the original
pre-strip generated text in its `sql` field. -/
theorem chart_directive_stripped (execQ : GoStr → Option (List (Option RowMap)))
    (raw : GoStr)
    (h : hasSubstrB (NaturalLanguageToSQLText raw).1 chartMarker = true) :
    ∃ p0 p1 ps,
      splitMarker (NaturalLanguageToSQLText raw).1 = p0 :: p1 :: ps ∧
      splitChart (NaturalLanguageToSQLText raw).1 (NaturalLanguageToSQLText raw).2
        = (p0, goTrimSpace p1) ∧
      (NaturalLanguageToSQLText raw).1 = p0 ++ chartMarker ++ joinMarker (p1 :: ps) ∧
      hasSubstrB p0 chartMarker = false ∧
      (∀ cursor, IsQuerySafe p0 = true → execQ p0 = some cursor →
        queryPipeline execQ raw =
          (.ok ⟨(NaturalLanguageToSQLText raw).1, materializeRows cursor, true,
             goTrimSpace p1⟩, [p0])) := by
  have hlt : (NaturalLanguageToSQLText raw).1.length
      < (NaturalLanguageToSQLText raw).1.length + 1 := Nat.lt_succ_self _
  have hlen : 2 ≤ (splitMarker (NaturalLanguageToSQLText raw).1).length := by
    have := (splitMarkerF_length_iff ((NaturalLanguageToSQLText raw).1.length + 1)
      (NaturalLanguageToSQLText raw).1 hlt).mp h
    simpa [splitMarker] using this
  rcases hsp : splitMarker (NaturalLanguageToSQLText raw).1 with _ | ⟨p0, _ | ⟨p1, ps⟩⟩
  · rw [hsp] at hlen; simp at hlen
  · rw [hsp] at hlen; simp at hlen
  refine ⟨p0, p1, ps, rfl, ?_, ?_, ?_, ?_⟩
  · rw [splitChart, nlText_isChart raw, h, if_pos rfl, hsp]
  · have hjoin := splitMarkerF_join ((NaturalLanguageToSQLText raw).1.length + 1)
      (NaturalLanguageToSQLText raw).1 hlt
    rw [← splitMarker_eq_splitMarkerF hlt, hsp] at hjoin
    conv_lhs => rw [← hjoin]
    simp [joinMarker]
  · have hhead := splitMarkerF_head ((NaturalLanguageToSQLText raw).1.length + 1)
      (NaturalLanguageToSQLText raw).1 hlt p0 (p1 :: ps)
      (by rw [← splitMarker_eq_splitMarkerF hlt, hsp])
    exact hhead.1
  · intro cursor hsafe hexec
    have hchart : splitChart (NaturalLanguageToSQLText raw).1
        (NaturalLanguageToSQLText raw).2 = (p0, goTrimSpace p1) := by
      rw [splitChart, nlText_isChart raw, h, if_pos rfl, hsp]
    have hic : (NaturalLanguageToSQLText raw).2 = true := by
      rw [nlText_isChart raw, h]
    unfold queryPipeline queryCore
    rw [hchart]
    simp only [hsafe, if_true, hexec, hic]

/-- A generator response carrying a bar-chart directive. -/
def rawBar : GoStr :=
  "SELECT city, COUNT(1) AS c FROM restaurants GROUP BY city; -- CHART: bar".toList

theorem chart_directive_stripped_witness :
    ∃ p0 p1 ps,
      splitMarker (NaturalLanguageToSQLText rawBar).1 = p0 :: p1 :: ps ∧
      splitChart (NaturalLanguageToSQLText rawBar).1 (NaturalLanguageToSQLText rawBar).2
        = (p0, goTrimSpace p1) ∧
      (NaturalLanguageToSQLText rawBar).1 = p0 ++ chartMarker ++ joinMarker (p1 :: ps) ∧
      hasSubstrB p0 chartMarker = false ∧
      (∀ cursor, IsQuerySafe p0 = true →
        (fun _ => some ([] : List (Option RowMap))) p0 = some cursor →
        queryPipeline (fun _ => some []) rawBar =
          (.ok ⟨(NaturalLanguageToSQLText rawBar).1, materializeRows cursor, true,
             goTrimSpace p1⟩, [p0])) :=
  chart_directive_stripped (fun _ => some []) rawBar (by decide)

/-- The chart intent words listed in the generator's system directive in
`internal/gemini/gemini.go`.  Modelled from the spec: recognition of these
words is performed by the external generator, which is prompt text rather
than repository code. -/
def chartIntentWords : List GoStr :=
  ["chart".toList, "graph".toList, "plot".toList, "show".toList,
   "draw".toList, "visualize".toList]

/-- Modelled from the spec: a question "carries an explicit chart intent
word" when one of the directive's intent words occurs in it. -/
def hasChartIntent (question : GoStr) : Bool :=
  chartIntentWords.any fun w => hasSubstrB question w

/-- The four chart kinds recognized by the system directive in
`internal/gemini/gemini.go`. -/
def recognizedChartKinds : List GoStr :=
  ["bar".toList, "pie".toList, "line".toList, "doughnut".toList]

/-- A question that does carry an explicit chart intent word. -/
def questionScatter : GoStr := "show a chart of restaurants by city".toList

/-- A generator response annotating its query with an unrecognized chart
kind. -/
def rawScatter : GoStr :=
  "SELECT city, COUNT(1) AS c FROM restaurants GROUP BY city -- CHART: scatter".toList

/-- C5 counterexample: nothing in the code constrains `chartType` to the four
recognized kinds, because `isChart` and `chartType` are computed from the
generator's output alone — for a question that does carry an explicit chart
intent word, a generator response annotated `-- CHART: scatter` yields a
successful result with `isChart = true` but `chartType = "scatter"`, which is
none of `bar`, `pie`, `line`, `doughnut`. -/
theorem chartKind_not_validated :
    hasChartIntent questionScatter = true ∧
      (queryPipeline (fun _ => some []) rawScatter).1 =
        .ok ⟨rawScatter, [], true, "scatter".toList⟩ ∧
      "scatter".toList ∉ recognizedChartKinds := by decide

/-- C5 (amended): in every successful `query` response, `isChart` is true
exactly when the generator's cleaned output contains the marker `-- CHART:`
(the question's wording enters only through the generator's output), the
`sql` field is the cleaned generated text, and `chartType` is whatever text
the split extracts after the first marker, taken verbatim with no validation
against the four recognized kinds. -/
theorem query_isChart_from_marker (execQ : GoStr → Option (List (Option RowMap)))
    (raw : GoStr) (resp : QueryResponse) (log : List GoStr)
    (h : queryPipeline execQ raw = (.ok resp, log)) :
    resp.isChart = hasSubstrB (NaturalLanguageToSQLText raw).1 chartMarker ∧
      resp.sql = (NaturalLanguageToSQLText raw).1 ∧
      resp.chartType = (splitChart (NaturalLanguageToSQLText raw).1
          (NaturalLanguageToSQLText raw).2).2 := by
  obtain ⟨rsql, rres, ric, rct⟩ := resp
  unfold queryPipeline queryCore at h
  split at h
  · split at h
    · exact absurd (congrArg Prod.fst h) (by simp)
    · have h1 := congrArg Prod.fst h
      simp only [QueryOutcome.ok.injEq, QueryResponse.mk.injEq] at h1
      obtain ⟨e1, e2, e3, e4⟩ := h1
      subst e1
      subst e3
      subst e4
      simp only [QueryResponse.isChart, QueryResponse.sql, QueryResponse.chartType]
      exact ⟨nlText_isChart raw, trivial, trivial⟩
  · exact absurd (congrArg Prod.fst h) (by simp)

theorem query_isChart_from_marker_witness :
    (⟨"SELECT 1".toList, [], false, []⟩ : QueryResponse).isChart
        = hasSubstrB (NaturalLanguageToSQLText "SELECT 1".toList).1 chartMarker ∧
      (⟨"SELECT 1".toList, [], false, []⟩ : QueryResponse).sql
        = (NaturalLanguageToSQLText "SELECT 1".toList).1 ∧
      (⟨"SELECT 1".toList, [], false, []⟩ : QueryResponse).chartType
        = (splitChart (NaturalLanguageToSQLText "SELECT 1".toList).1
            (NaturalLanguageToSQLText "SELECT 1".toList).2).2 :=
  query_isChart_from_marker (fun _ => some []) "SELECT 1".toList
    ⟨"SELECT 1".toList, [], false, []⟩ ["SELECT 1".toList] (by decide)

/-! ## Generation Orchestrator (`cmd/web/main.go`, `generateData`) -/

/-- Split the generator output on semicolons (Go `strings.Split sqlResult ";"`). -/
def goSplitSemi (s : GoStr) : List GoStr := s.splitOn ';'

/-- The transactional batch loop of `generateData`: trim each fragment, skip
empties, execute in order against the transaction-local state; stop at the
first failing statement, whose text is the error value.  The second component
is the list of statements handed to the store, in order. -/
def execBatch {α : Type} (exec : GoStr → α → Option α) :
    List GoStr → α → Except GoStr α × List GoStr
  | [], st => (.ok st, [])
  | s :: rest, st =>
    if goTrimSpace s = [] then execBatch exec rest st
    else
      match exec (goTrimSpace s) st with
      | none => (.error (goTrimSpace s), [goTrimSpace s])
      | some st2 =>
          ((execBatch exec rest st2).1, goTrimSpace s :: (execBatch exec rest st2).2)

/-- The responses of the `generateData` handler. -/
inductive GenResponse where
  | emptySchema
  | execError (stmt : GoStr)
  | success
  deriving DecidableEq

/-- Observable outcome of a `generateData` call: the HTTP-level response, the
database state afterwards, whether the external generator was invoked, and
the statements that reached the store. -/
structure GenOut (α : Type) where
  response : GenResponse
  db : α
  generatorCalled : Bool
  executed : List GoStr
  deriving DecidableEq

/-- `generateData` from `cmd/web/main.go`, past request decoding: fetch the
schema; fail before calling the generator when it is empty; otherwise call
the generator, split its output on semicolons and drive the statements
through a transaction — rolled back (the state is unchanged) at the first
failure, committed as a whole on success. -/
def generateData {α : Type} (exec : GoStr → α → Option α) (gen : GoStr → GoStr)
    (catalog : List TableDef) (db : α) : GenOut α :=
  if GetSchemaOfCatalog catalog = [] then ⟨.emptySchema, db, false, []⟩
  else
    match execBatch exec (goSplitSemi (gen (GetSchemaOfCatalog catalog))) db with
    | (.error t, log) => ⟨.execError t, db, true, log⟩
    | (.ok st, log) => ⟨.success, st, true, log⟩

/-- C2: execution of a generated statement batch is atomic — whenever any
statement of the batch fails, the transaction is rolled back and the database
state after the batch equals the state before it (zero net effect); when
every statement succeeds, the batch's final transaction state is committed as
a whole. -/
theorem generateData_atomic {α : Type} (exec : GoStr → α → Option α)
    (gen : GoStr → GoStr) (catalog : List TableDef) (db : α) :
    (∀ t, (generateData exec gen catalog db).response = .execError t →
        (generateData exec gen catalog db).db = db) ∧
    ((generateData exec gen catalog db).response = .success →
      ∃ st log,
        execBatch exec (goSplitSemi (gen (GetSchemaOfCatalog catalog))) db
            = (.ok st, log) ∧
          (generateData exec gen catalog db).db = st) := by
  unfold generateData
  split
  · exact ⟨fun t ht => (by cases ht), fun hs => (by cases hs)⟩
  · split
    next t log heq => exact ⟨fun _ _ => rfl, fun hs => (by cases hs)⟩
    next st log heq =>
      exact ⟨fun t ht => (by cases ht), fun _ => ⟨st, log, heq, rfl⟩⟩

/-- A batch whose second statement violates a uniqueness constraint: the
store accepts `INSERT INTO t VALUES (1)` only while `1` is absent. -/
def execDup : GoStr → List Nat → Option (List Nat) := fun s st =>
  if s = "INSERT INTO t VALUES (1)".toList then
    (if 1 ∈ st then none else some (st ++ [1]))
  else none

/-- A generator that returns the duplicate-insert batch. -/
def genDup : GoStr → GoStr :=
  fun _ => "INSERT INTO t VALUES (1);INSERT INTO t VALUES (1)".toList

/-- A one-table catalog for the atomicity witness. -/
def catalogT : List TableDef :=
  [⟨"t".toList, [("v".toList, "integer".toList)]⟩]

theorem generateData_atomic_witness :
    (generateData execDup genDup catalogT ([] : List Nat)).response
        = .execError "INSERT INTO t VALUES (1)".toList ∧
      (generateData execDup genDup catalogT ([] : List Nat)).db = [] :=
  ⟨by decide,
   (generateData_atomic execDup genDup catalogT []).1
     "INSERT INTO t VALUES (1)".toList (by decide)⟩

/-- C9: when no tables exist, the rendered schema description is empty and
`generateData` fails with the empty-schema error before calling the external
generator and before executing any statement, leaving the state untouched. -/
theorem generateData_empty_schema {α : Type} (exec : GoStr → α → Option α)
    (gen : GoStr → GoStr) (db : α) (catalog : List TableDef)
    (h : catalog = []) :
    generateData exec gen catalog db = ⟨.emptySchema, db, false, []⟩ := by
  subst h
  rfl

theorem generateData_empty_schema_witness :
    generateData (fun (_ : GoStr) (_ : List Nat) => none) (fun s => s) []
        ([] : List Nat) = ⟨.emptySchema, [], false, []⟩ :=
  generateData_empty_schema (fun _ _ => none) (fun s => s) [] [] rfl

/-- C6 (amended): statement-level execution errors are surfaced with the
offending SQL text attached and never swallowed — the transactional batch
loop reports exactly the statement whose execution failed, and the
single-statement query path reports the executed SQL — but an error while
materializing a cursor row (a failed scan) is NOT surfaced: the failing row
is silently skipped and the request still succeeds. -/
theorem exec_errors_surfaced (α : Type) :
    (∀ (exec : GoStr → α → Option α) (stmts : List GoStr) (st : α) (t : GoStr)
        (log : List GoStr), execBatch exec stmts st = (.error t, log) →
        (∃ st2, exec t st2 = none) ∧ t ∈ log) ∧
    (∀ (execQ : GoStr → Option (List (Option RowMap))) (g : GoStr) (ic : Bool),
        IsQuerySafe (splitChart g ic).1 = true →
        execQ (splitChart g ic).1 = none →
        queryCore execQ g ic
          = (.execError (splitChart g ic).1, [(splitChart g ic).1])) ∧
    (∀ (execQ : GoStr → Option (List (Option RowMap))) (g : GoStr) (ic : Bool)
        (cursor : List (Option RowMap)),
        IsQuerySafe (splitChart g ic).1 = true →
        execQ (splitChart g ic).1 = some cursor →
        queryCore execQ g ic
          = (.ok ⟨g, cursor.filterMap id, ic, (splitChart g ic).2⟩,
             [(splitChart g ic).1])) := by
  refine ⟨?_, ?_, ?_⟩
  · intro exec stmts
    induction stmts with
    | nil =>
      intro st t log h
      rw [execBatch, Prod.mk.injEq] at h
      cases h.1
    | cons s rest ih =>
      intro st t log h
      rw [execBatch] at h
      by_cases he : goTrimSpace s = []
      · rw [if_pos he] at h
        exact ih st t log h
      · rw [if_neg he] at h
        cases hx : exec (goTrimSpace s) st with
        | none =>
          rw [hx, Prod.mk.injEq] at h
          obtain ⟨h1, h2⟩ := h
          injection h1 with h1
          subst h1
          subst h2
          exact ⟨⟨st, hx⟩, List.mem_singleton_self _⟩
        | some st2 =>
          rw [hx, Prod.mk.injEq] at h
          obtain ⟨h1, h2⟩ := h
          have hpair : execBatch exec rest st2
              = (.error t, (execBatch exec rest st2).2) := by
            rw [← h1]
          obtain ⟨hex, hmem⟩ := ih st2 t (execBatch exec rest st2).2 hpair
          exact ⟨hex, by rw [← h2]; exact List.mem_cons_of_mem _ hmem⟩
  · intro execQ g ic hsafe hexec
    unfold queryCore
    simp only [hsafe, if_true, hexec]
  · intro execQ g ic cursor hsafe hexec
    unfold queryCore
    simp only [hsafe, if_true, hexec, materializeRows]

theorem exec_errors_surfaced_witness :
    ((∃ st2 : Nat,
        (fun (_ : GoStr) (_ : Nat) => (none : Option Nat)) "UPDATE t".toList st2
          = none) ∧
      "UPDATE t".toList ∈ ["UPDATE t".toList]) ∧
    queryCore (fun _ => none) "SELECT 2".toList false
        = (.execError (splitChart "SELECT 2".toList false).1,
           [(splitChart "SELECT 2".toList false).1]) ∧
    queryCore (fun _ => some [none]) "SELECT 3".toList false
        = (.ok ⟨"SELECT 3".toList, ([none] : List (Option RowMap)).filterMap id,
             false, (splitChart "SELECT 3".toList false).2⟩,
           [(splitChart "SELECT 3".toList false).1]) :=
  ⟨(exec_errors_surfaced Nat).1 (fun _ _ => none) ["UPDATE t".toList] 0
      "UPDATE t".toList ["UPDATE t".toList] rfl,
   (exec_errors_surfaced Nat).2.1 (fun _ => none) "SELECT 2".toList false
      (by decide) rfl,
   (exec_errors_surfaced Nat).2.2 (fun _ => some [none]) "SELECT 3".toList false
      [none] (by decide) rfl⟩

/-- A cursor whose single row fails to scan. -/
def failRowCursor : List (Option RowMap) := [none]

/-- C6 counterexample: a row-scan failure is swallowed: executing a statement
whose cursor contains a row that fails to scan yields a successful response
with the failing row silently dropped (empty result set) and no error
surfaced to the caller. -/
theorem scan_error_swallowed :
    (none : Option RowMap) ∈ failRowCursor ∧
      queryCore (fun _ => some failRowCursor)
          "SELECT name FROM restaurants".toList false
        = (.ok ⟨"SELECT name FROM restaurants".toList, [], false, []⟩,
           ["SELECT name FROM restaurants".toList]) := by decide

/-! ## CSV export (`cmd/web/main.go`, `downloadCSV` / `downloadZip`) -/

/-- `fmt.Sprintf "%v"` on the dynamic values the driver produces. -/
def goFormatV : GoValue → GoStr
  | .vnull => "<nil>".toList
  | .vstr s => s
  | .vint n => (toString n).toList
  | .vbool b => if b then "true".toList else "false".toList

/-- The cell serialization of the `downloadCSV` row loop: a NULL scans to
`nil` and is written as the empty string; any other value is written with
`%v`. -/
def downloadCSVCell (v : GoValue) : GoStr :=
  if v = .vnull then [] else goFormatV v

/-- One record of the `downloadCSV` loop. -/
def downloadCSVRecord (row : List GoValue) : List GoStr :=
  row.map downloadCSVCell

/-- The identical cell serialization in the ZIP-archive path (`downloadZip`). -/
def downloadZipCell (v : GoValue) : GoStr :=
  if v = .vnull then [] else goFormatV v

/-- One record of the `downloadZip` loop. -/
def downloadZipRecord (row : List GoValue) : List GoStr :=
  row.map downloadZipCell

/-- C10: in both CSV export paths every NULL column value is serialized as
the empty string, making a NULL cell indistinguishable in the exported file
from a column holding the empty string: the serialized record carries the
empty string at the NULL position, exactly as it does after replacing the
NULL by an empty-string value. -/
theorem csv_null_as_empty (row : List GoValue) (i : Nat)
    (h : row[i]? = some .vnull) :
    (downloadCSVRecord row)[i]? = some [] ∧
      (downloadZipRecord row)[i]? = some [] ∧
      (downloadCSVRecord row)[i]?
        = (downloadCSVRecord (row.set i (.vstr [])))[i]? ∧
      (downloadZipRecord row)[i]?
        = (downloadZipRecord (row.set i (.vstr [])))[i]? := by
  have hi : i < row.length := by
    by_contra hlt
    rw [List.getElem?_eq_none (le_of_not_lt hlt)] at h
    cases h
  have hset : (row.set i (GoValue.vstr []))[i]? = some (GoValue.vstr []) :=
    List.getElem?_set_self (by simpa using hi)
  have hx : row[i] = GoValue.vnull := by
    have h2 := h
    rw [List.getElem?_eq_getElem hi] at h2
    exact Option.some_injective _ h2
  refine ⟨?_, ?_, ?_, ?_⟩ <;>
    (simp [downloadCSVRecord, downloadZipRecord, h, hset, hi,
      downloadCSVCell, downloadZipCell, goFormatV]) <;>
    exact fun hc => absurd hx hc

theorem csv_null_as_empty_witness :
    (downloadCSVRecord [GoValue.vnull])[0]? = some [] ∧
      (downloadZipRecord [GoValue.vnull])[0]? = some [] ∧
      (downloadCSVRecord [GoValue.vnull])[0]?
        = (downloadCSVRecord ([GoValue.vnull].set 0 (.vstr [])))[0]? ∧
      (downloadZipRecord [GoValue.vnull])[0]?
        = (downloadZipRecord ([GoValue.vnull].set 0 (.vstr [])))[0]? :=
  csv_null_as_empty [GoValue.vnull] 0 (by decide)
